import Mathlib

/-!
Verification of the long-form transcription pipeline of the `visju_app`
backend (`backend/app/services/transcription_service.py` and
`backend/app/api/transcription_router.py`).

Python strings are embedded as lists of characters (`PyStr`), the
NumPy audio buffer as its sample count, machine integers as `Int`/`Nat`,
and the database as explicit lists of session and transcript records.
The inference backend, uuid generation and the filesystem are oracles
passed as parameters.
-/

set_option maxHeartbeats 1000000

/-- Embedding of a Python `str` as a list of characters. -/
abbrev PyStr := List Char

/-- Python `str.isspace` for one character (the characters occurring in this
development are ASCII, where this agrees with `Char.isWhitespace`). -/
def isWS (c : Char) : Bool := c.isWhitespace

/-- Accumulator version of whitespace tokenisation; `acc` holds the
current word reversed. -/
def wordsAux : List Char → List Char → List (List Char)
  | [], acc => if acc = [] then [] else [acc.reverse]
  | c :: cs, acc =>
    if isWS c then
      if acc = [] then wordsAux cs [] else acc.reverse :: wordsAux cs []
    else wordsAux cs (c :: acc)

/-- Embedding of Python `str.split()` (no argument): split on runs of
whitespace, dropping empty tokens. -/
def words (s : PyStr) : List PyStr := wordsAux s []

/-- Embedding of Python `" ".join(parts)`. -/
def joinWords : List PyStr → PyStr
  | [] => []
  | [w] => w
  | w :: ws => w ++ ' ' :: joinWords ws

/-- Embedding of Python `str.strip()`: remove leading and trailing
whitespace. -/
def stripChars (s : PyStr) : PyStr :=
  ((s.dropWhile isWS).reverse.dropWhile isWS).reverse

/-! ### Unfolding equations for `words` in span form -/

theorem words_nil : words [] = [] := rfl

theorem words_cons_ws {c : Char} (cs : List Char) (h : isWS c = true) :
    words (c :: cs) = words cs := by
  simp [words, wordsAux, h]

theorem wordsAux_acc (cs : List Char) (acc : List Char) (h : acc ≠ []) :
    wordsAux cs acc =
      (acc.reverse ++ cs.takeWhile (fun c => !isWS c)) ::
        words (cs.dropWhile (fun c => !isWS c)) := by
  induction cs generalizing acc with
  | nil => simp [wordsAux, h, words]
  | cons c cs ih =>
    by_cases hc : isWS c = true
    · simp [wordsAux, hc, h, List.takeWhile, List.dropWhile, words]
    · have hc' : isWS c = false := by simpa using hc
      have step : wordsAux (c :: cs) acc = wordsAux cs (c :: acc) := by
        simp [wordsAux, hc']
      rw [step, ih (c :: acc) (by simp)]
      simp [List.takeWhile, List.dropWhile, hc']

theorem words_cons_nonws {c : Char} (cs : List Char) (h : isWS c = false) :
    words (c :: cs) =
      (c :: cs.takeWhile (fun c => !isWS c)) ::
        words (cs.dropWhile (fun c => !isWS c)) := by
  show wordsAux (c :: cs) [] = _
  have step : wordsAux (c :: cs) [] = wordsAux cs [c] := by
    simp [wordsAux, h]
  rw [step, wordsAux_acc cs [c] (by simp)]
  simp

theorem length_dropWhile_le (p : Char → Bool) (l : List Char) :
    (l.dropWhile p).length ≤ l.length := by
  induction l with
  | nil => simp [List.dropWhile]
  | cons c cs ih =>
    by_cases h : p c
    · simp only [List.dropWhile, h, List.length_cons]
      omega
    · simp [List.dropWhile, h]

theorem takeWhile_append_cons (p : Char → Bool) (cs : List Char) (d : Char)
    (ds : List Char) (hd : p d = false) :
    (cs ++ d :: ds).takeWhile p = cs.takeWhile p := by
  induction cs with
  | nil => simp [List.takeWhile, hd]
  | cons c cs ih =>
    by_cases h : p c <;> simp [List.takeWhile, h, ih]

theorem dropWhile_append_cons (p : Char → Bool) (cs : List Char) (d : Char)
    (ds : List Char) (hd : p d = false) :
    (cs ++ d :: ds).dropWhile p = cs.dropWhile p ++ d :: ds := by
  induction cs with
  | nil => simp [List.dropWhile, hd]
  | cons c cs ih =>
    by_cases h : p c <;> simp [List.dropWhile, h, ih]

theorem mem_takeWhile_sat (p : Char → Bool) (l : List Char) (a : Char)
    (h : a ∈ l.takeWhile p) : p a = true := by
  induction l with
  | nil => simp [List.takeWhile] at h
  | cons c cs ih =>
    by_cases hc : p c
    · simp only [List.takeWhile, hc] at h
      rcases List.mem_cons.mp h with rfl | h
      · exact hc
      · exact ih h
    · simp [List.takeWhile, hc] at h

theorem takeWhile_eq_self_of_sat (p : Char → Bool) (l : List Char)
    (h : ∀ c ∈ l, p c = true) : l.takeWhile p = l := by
  induction l with
  | nil => rfl
  | cons c cs ih =>
    have hc := h c (by simp)
    simp [List.takeWhile, hc, ih fun d hd => h d (by simp [hd])]

theorem dropWhile_eq_nil_of_sat (p : Char → Bool) (l : List Char)
    (h : ∀ c ∈ l, p c = true) : l.dropWhile p = [] := by
  induction l with
  | nil => rfl
  | cons c cs ih =>
    have hc := h c (by simp)
    simp [List.dropWhile, hc, ih fun d hd => h d (by simp [hd])]

/-- Splitting on words distributes over a single-space separator. -/
theorem words_append_space : ∀ (xs ys : PyStr),
    words (xs ++ ' ' :: ys) = words xs ++ words ys
  | [], ys => by
    simp only [List.nil_append]
    rw [words_cons_ws ys (by decide), words_nil, List.nil_append]
  | c :: cs, ys => by
    by_cases hc : isWS c = true
    · rw [List.cons_append, words_cons_ws _ hc, words_cons_ws _ hc]
      exact words_append_space cs ys
    · have hc' : isWS c = false := by simpa using hc
      rw [List.cons_append, words_cons_nonws _ hc', words_cons_nonws _ hc']
      rw [takeWhile_append_cons _ cs ' ' ys (by decide),
        dropWhile_append_cons _ cs ' ' ys (by decide)]
      rw [words_append_space (cs.dropWhile fun c => !isWS c) ys]
      simp
  termination_by xs _ => xs.length
  decreasing_by
  · simp
  · have := length_dropWhile_le (fun c => !isWS c) cs
    simp only [List.length_cons]
    omega

theorem words_all_ws (zs : PyStr) (h : ∀ c ∈ zs, isWS c = true) :
    words zs = [] := by
  induction zs with
  | nil => rfl
  | cons c cs ih =>
    rw [words_cons_ws cs (h c (by simp))]
    exact ih fun d hd => h d (by simp [hd])

/-- Appending trailing whitespace does not change the word list. -/
theorem words_append_ws : ∀ (xs zs : PyStr), (∀ c ∈ zs, isWS c = true) →
    words (xs ++ zs) = words xs
  | [], zs, h => by simpa using words_all_ws zs h
  | c :: cs, zs, h => by
    by_cases hc : isWS c = true
    · rw [List.cons_append, words_cons_ws _ hc, words_cons_ws _ hc]
      exact words_append_ws cs zs h
    · have hc' : isWS c = false := by simpa using hc
      rw [List.cons_append, words_cons_nonws _ hc', words_cons_nonws _ hc']
      cases zs with
      | nil => simp
      | cons z zs' =>
        have hz : isWS z = true := h z (by simp)
        rw [takeWhile_append_cons _ cs z zs' (by simp [hz]),
          dropWhile_append_cons _ cs z zs' (by simp [hz])]
        rw [words_append_ws (cs.dropWhile fun c => !isWS c) (z :: zs') h]
  termination_by xs _ _ => xs.length
  decreasing_by
  · simp
  · have := length_dropWhile_le (fun c => !isWS c) cs
    simp only [List.length_cons]
    omega

theorem words_dropWhile_ws (s : PyStr) :
    words (s.dropWhile isWS) = words s := by
  induction s with
  | nil => rfl
  | cons c cs ih =>
    by_cases hc : isWS c = true
    · rw [words_cons_ws cs hc, ← ih]
      simp [List.dropWhile, hc]
    · simp [List.dropWhile, hc]

/-- Stripping leading/trailing whitespace does not change the word list. -/
theorem words_strip (s : PyStr) : words (stripChars s) = words s := by
  unfold stripChars
  set t := s.dropWhile isWS with ht
  have h1 : words t = words s := words_dropWhile_ws s
  have hdecomp : t = (t.reverse.dropWhile isWS).reverse ++
      (t.reverse.takeWhile isWS).reverse := by
    have := List.takeWhile_append_dropWhile (p := isWS) (l := t.reverse)
    calc t = t.reverse.reverse := by simp
    _ = (t.reverse.takeWhile isWS ++ t.reverse.dropWhile isWS).reverse := by
        rw [this]
    _ = _ := by rw [List.reverse_append]
  have hws : ∀ c ∈ (t.reverse.takeWhile isWS).reverse, isWS c = true := by
    intro c hcmem
    exact mem_takeWhile_sat isWS t.reverse c (by simpa using hcmem)
  calc words (t.reverse.dropWhile isWS).reverse
      = words ((t.reverse.dropWhile isWS).reverse ++
          (t.reverse.takeWhile isWS).reverse) :=
        (words_append_ws _ _ hws).symm
    _ = words t := by rw [← hdecomp]
    _ = words s := h1

/-- A nonempty whitespace-free string is a single word. -/
theorem words_single (w : PyStr) (h1 : w ≠ [])
    (h2 : ∀ c ∈ w, isWS c = false) : words w = [w] := by
  cases w with
  | nil => exact absurd rfl h1
  | cons c cs =>
    rw [words_cons_nonws cs (h2 c (by simp))]
    rw [takeWhile_eq_self_of_sat _ cs (by intro d hd; simp [h2 d (by simp [hd])]),
      dropWhile_eq_nil_of_sat _ cs (by intro d hd; simp [h2 d (by simp [hd])])]
    rfl

/-- Every word produced by `words` is nonempty and whitespace-free. -/
theorem words_mem_clean : ∀ (s : PyStr), ∀ w ∈ words s,
    w ≠ [] ∧ ∀ c ∈ w, isWS c = false
  | [], w, hw => by simp [words_nil] at hw
  | c :: cs, w, hw => by
    by_cases hc : isWS c = true
    · rw [words_cons_ws cs hc] at hw
      exact words_mem_clean cs w hw
    · have hc' : isWS c = false := by simpa using hc
      rw [words_cons_nonws cs hc'] at hw
      rcases List.mem_cons.mp hw with rfl | hw
      · refine ⟨by simp, ?_⟩
        intro d hd
        rcases List.mem_cons.mp hd with rfl | hd
        · exact hc'
        · have := mem_takeWhile_sat (fun c => !isWS c) cs d hd
          simpa using this
      · exact words_mem_clean (cs.dropWhile fun c => !isWS c) w hw
  termination_by s _ _ => s.length
  decreasing_by
  · simp
  · have := length_dropWhile_le (fun c => !isWS c) cs
    simp only [List.length_cons]
    omega

/-- `" ".join` followed by `.split()` recovers a clean word list. -/
theorem words_join (ws : List PyStr)
    (h : ∀ w ∈ ws, w ≠ [] ∧ ∀ c ∈ w, isWS c = false) :
    words (joinWords ws) = ws := by
  induction ws with
  | nil => rfl
  | cons w ws ih =>
    cases ws with
    | nil =>
      show words w = [w]
      exact words_single w (h w (by simp)).1 (h w (by simp)).2
    | cons w' ws' =>
      show words (w ++ ' ' :: joinWords (w' :: ws')) = _
      rw [words_append_space, ih fun x hx => h x (by simp [List.mem_cons] at hx ⊢; tauto)]
      rw [words_single w (h w (by simp)).1 (h w (by simp)).2]
      rfl

/-- Tokenising a space-join gives the concatenation of the tokenisations. -/
theorem words_join_flat : ∀ (l : List PyStr),
    words (joinWords l) = (l.map words).flatten
  | [] => rfl
  | [w] => by simp [joinWords]
  | w :: w' :: ws => by
    show words (w ++ ' ' :: joinWords (w' :: ws)) = _
    rw [words_append_space, words_join_flat (w' :: ws)]
    simp

/-! ### Suffix/infix helpers -/

theorem drop_sfx (n : Nat) (l : List PyStr) : l.drop n <:+ l :=
  ⟨l.take n, List.take_append_drop n l⟩

theorem sfx_append_right {a b c : List PyStr} (h : a <:+ b) :
    a ++ c <:+ b ++ c := by
  rcases h with ⟨s, rfl⟩
  exact ⟨s, by simp⟩

theorem sfx_to_inf {a b : List PyStr} (h : a <:+ b) : a <:+: b := by
  rcases h with ⟨s, rfl⟩
  exact ⟨s, [], by simp⟩

theorem inf_append_right {a b c : List PyStr} (h : a <:+: b) :
    a <:+: b ++ c := by
  rcases h with ⟨s, t, rfl⟩
  exact ⟨s, t ++ c, by simp⟩

/-! ### Overlap reconciliation (`transcribe_audio`, lines 229-241)

The source scans `for j in range(min(len(prev_words), len(chunk_words)))`
and tests `prev_words[-j-1:] == chunk_words[:j+1]`, taking the first
(i.e. smallest) `j` that matches. -/

/-- One step of the `for j in range(...)` scan: try indices
`j, j+1, ..., j+r-1` in order and return the first match. -/
def scanAux (pw cw : List PyStr) (j : Nat) : Nat → Option Nat
  | 0 => none
  | r + 1 =>
    if pw.drop (pw.length - (j + 1)) = cw.take (j + 1) then some j
    else scanAux pw cw (j + 1) r

/-- The overlap scan of the source: first `j < min (len pw) (len cw)` such
that the last `j+1` tokens of `pw` equal the first `j+1` tokens of `cw`. -/
def scanOverlap (pw cw : List PyStr) : Option Nat :=
  scanAux pw cw 0 (min pw.length cw.length)

/-- Python `full_text_parts[-1].split()[-3:]`: the last three words of the
previously accepted chunk text. -/
def prevWindow (prevPart : PyStr) : List PyStr :=
  (words prevPart).drop ((words prevPart).length - 3)

/-- The inline overlap-removal of `transcribe_audio`: drop the first
`j+1` words of the new chunk text for the first matching `j`, re-joining
with single spaces; leave the text unchanged when no suffix/prefix run
matches. -/
def reconcilePair (prevPart chunkText : PyStr) : PyStr :=
  match scanOverlap (prevWindow prevPart) (words chunkText) with
  | some j => joinWords ((words chunkText).drop (j + 1))
  | none => chunkText

theorem scanAux_some_spec (pw cw : List PyStr) :
    ∀ (r j j' : Nat), scanAux pw cw j r = some j' →
      j ≤ j' ∧ j' < j + r ∧
        pw.drop (pw.length - (j' + 1)) = cw.take (j' + 1) ∧
        ∀ i, j ≤ i → i < j' → pw.drop (pw.length - (i + 1)) ≠ cw.take (i + 1) := by
  intro r
  induction r with
  | zero => intro j j' h; simp [scanAux] at h
  | succ r ih =>
    intro j j' h
    by_cases hm : pw.drop (pw.length - (j + 1)) = cw.take (j + 1)
    · simp only [scanAux, if_pos hm] at h
      obtain rfl : j = j' := Option.some.inj h
      exact ⟨Nat.le_refl _, by omega, hm, fun i h1 h2 => absurd h2 (by omega)⟩
    · simp only [scanAux, if_neg hm] at h
      obtain ⟨h1, h2, h3, h4⟩ := ih (j + 1) j' h
      refine ⟨by omega, by omega, h3, ?_⟩
      intro i hi1 hi2
      rcases Nat.eq_or_lt_of_le hi1 with rfl | hlt
      · exact hm
      · exact h4 i hlt hi2

theorem scanAux_none_spec (pw cw : List PyStr) :
    ∀ (r j : Nat), scanAux pw cw j r = none →
      ∀ i, j ≤ i → i < j + r → pw.drop (pw.length - (i + 1)) ≠ cw.take (i + 1) := by
  intro r
  induction r with
  | zero => intro j _ i h1 h2; omega
  | succ r ih =>
    intro j h i hi1 hi2
    by_cases hm : pw.drop (pw.length - (j + 1)) = cw.take (j + 1)
    · simp [scanAux, if_pos hm] at h
    · simp only [scanAux, if_neg hm] at h
      rcases Nat.eq_or_lt_of_le hi1 with rfl | hlt
      · exact hm
      · exact ih (j + 1) h i hlt (by omega)

theorem scanOverlap_some_spec (pw cw : List PyStr) (j : Nat)
    (h : scanOverlap pw cw = some j) :
    j < min pw.length cw.length ∧
      pw.drop (pw.length - (j + 1)) = cw.take (j + 1) ∧
      ∀ i, i < j → pw.drop (pw.length - (i + 1)) ≠ cw.take (i + 1) := by
  obtain ⟨h1, h2, h3, h4⟩ := scanAux_some_spec pw cw _ 0 j h
  exact ⟨by omega, h3, fun i hi => h4 i (Nat.zero_le i) hi⟩

theorem scanOverlap_none_spec (pw cw : List PyStr)
    (h : scanOverlap pw cw = none) :
    ∀ i, i < min pw.length cw.length →
      pw.drop (pw.length - (i + 1)) ≠ cw.take (i + 1) :=
  fun i hi => scanAux_none_spec pw cw _ 0 h i (Nat.zero_le i) (by omega)

/-! ### Audio chunking (`_create_audio_chunks`, lines 101-134)

`chunk_samples = int(self.chunk_length * self.sample_rate) = int(30.0 * 16000)`
and `overlap_samples = int(self.overlap_length * self.sample_rate) =
int(1.0 * 16000)` for the hard-coded service configuration. -/

def chunkSamples : Nat := 480000

def overlapSamples : Nat := 16000

def strideSamples : Nat := chunkSamples - overlapSamples

/-- The `while start_sample < len(audio)` loop of `_create_audio_chunks`,
with general chunk/overlap sizes in samples. `fuel` bounds the number of
iterations (the Python loop is unbounded); `none` means the loop has not
finished within `fuel` iterations. Positions are `Int` as in Python,
where `chunk_samples - overlap_samples` may be negative. The source
appends the chunk, advances `start_sample`, then breaks when
`end_sample >= len(audio)`; since advancing does not affect the break
test, this is modelled by stopping right after appending a final chunk. -/
def chunkLoop (cs os : Nat) : Nat → Nat → Int → Option (List (Int × Int))
  | 0, _, _ => none
  | fuel + 1, n, start =>
    if start < (n : Int) then
      if (n : Int) ≤ min (start + (cs : Int)) (n : Int) then
        some [(start, min (start + (cs : Int)) (n : Int))]
      else
        match chunkLoop cs os fuel n (start + ((cs : Int) - (os : Int))) with
        | some r => some ((start, min (start + (cs : Int)) (n : Int)) :: r)
        | none => none
    else some []

/-- `_create_audio_chunks` on a buffer of `n` samples for the service's
hard-coded configuration: a single chunk when `len(audio) <= chunk_samples`,
otherwise the overlapping-window loop. `n / strideSamples + 2` iterations
always suffice (`chunkLoop_fuel_enough`). -/
def createAudioChunks (n : Nat) : List (Int × Int) :=
  if n ≤ chunkSamples then [(0, (n : Int))]
  else (chunkLoop chunkSamples overlapSamples (n / strideSamples + 2) n 0).getD []

/-- With a positive stride, one more iteration than `(n - start)/stride`
always finishes the loop. -/
theorem chunkLoop_fuel_enough (cs os : Nat) (_hos : os < cs) :
    ∀ (fuel : Nat) (n : Nat) (start : Int),
      (n : Int) ≤ start + (fuel : Int) * ((cs : Int) - (os : Int)) →
      ∃ l, chunkLoop cs os (fuel + 1) n start = some l := by
  intro fuel
  induction fuel with
  | zero =>
    intro n start h
    refine ⟨[], ?_⟩
    have hge : ¬(start < (n : Int)) := by
      simp only [Nat.cast_zero, zero_mul, add_zero] at h
      omega
    rw [chunkLoop, if_neg hge]
  | succ fuel ih =>
    intro n start h
    by_cases hlt : start < (n : Int)
    · by_cases hend : (n : Int) ≤ min (start + (cs : Int)) (n : Int)
      · refine ⟨[(start, min (start + (cs : Int)) (n : Int))], ?_⟩
        rw [chunkLoop, if_pos hlt, if_pos hend]
      · have hmul : ((fuel : Int) + 1) * ((cs : Int) - (os : Int)) =
            (fuel : Int) * ((cs : Int) - (os : Int)) + ((cs : Int) - (os : Int)) := by
          ring
        have h' : (n : Int) ≤ (start + ((cs : Int) - (os : Int))) +
            (fuel : Int) * ((cs : Int) - (os : Int)) := by
          push_cast at h
          rw [hmul] at h
          linarith
        obtain ⟨l, hl⟩ := ih n (start + ((cs : Int) - (os : Int))) h'
        refine ⟨(start, min (start + (cs : Int)) (n : Int)) :: l, ?_⟩
        rw [chunkLoop, if_pos hlt, if_neg hend, hl]
    · exact ⟨[], by rw [chunkLoop, if_neg hlt]⟩

/-- Full structural invariant of the chunking loop: every produced chunk
lies inside the buffer, the chunks cover `[start, n)` without gaps, the
head starts at `start`, the last end is exactly `n`, consecutive chunks
overlap by exactly `os` samples, and end positions are monotone. -/
theorem chunkLoop_spec (cs os : Nat) (hos : os < cs) :
    ∀ (fuel : Nat) (n : Nat) (start : Int) (l : List (Int × Int)),
      chunkLoop cs os fuel n start = some l →
      ((∀ p ∈ l, start ≤ p.1 ∧ p.1 < p.2 ∧ p.2 ≤ (n : Int)) ∧
       (∀ t : Int, start ≤ t → t < (n : Int) → ∃ p ∈ l, p.1 ≤ t ∧ t < p.2) ∧
       (start < (n : Int) →
         ∃ p r', l = p :: r' ∧ p.1 = start ∧
           p.2 = min (start + (cs : Int)) (n : Int)) ∧
       (start < (n : Int) → l.getLast?.map Prod.snd = some (n : Int)) ∧
       List.Chain' (fun a b => a.2 = b.1 + (os : Int)) l ∧
       List.Chain' (fun a b => a.2 ≤ b.2) l) := by
  intro fuel
  induction fuel with
  | zero => intro n start l h; rw [chunkLoop] at h; exact absurd h (by simp)
  | succ fuel ih =>
    intro n start l h
    by_cases hlt : start < (n : Int)
    · by_cases hend : (n : Int) ≤ min (start + (cs : Int)) (n : Int)
      · have hmin : min (start + (cs : Int)) (n : Int) = (n : Int) := by omega
        rw [chunkLoop, if_pos hlt, if_pos hend, hmin] at h
        obtain rfl : [(start, (n : Int))] = l := Option.some.inj h
        refine ⟨?_, ?_, ?_, fun _ => rfl, by simp, by simp⟩
        · intro p hp
          rcases List.mem_singleton.mp hp with rfl
          exact ⟨le_refl _, hlt, le_refl _⟩
        · intro t h1 h2
          exact ⟨(start, (n : Int)), List.mem_singleton.mpr rfl, h1, h2⟩
        · intro _
          exact ⟨(start, (n : Int)), [], rfl, rfl, hmin.symm⟩
      · have hmin : min (start + (cs : Int)) (n : Int) = start + (cs : Int) := by
          omega
        have hcs_lt : start + (cs : Int) < (n : Int) := by omega
        rw [chunkLoop, if_pos hlt, if_neg hend, hmin] at h
        rcases hr : chunkLoop cs os fuel n (start + ((cs : Int) - (os : Int)))
          with _ | r
        · rw [hr] at h; exact absurd h (by simp)
        · rw [hr] at h
          have h2 : some ((start, start + (cs : Int)) :: r) = some l := h
          obtain rfl : (start, start + (cs : Int)) :: r = l := Option.some.inj h2
          obtain ⟨hA, hB, hC, hD, hE, hF⟩ := ih n (start + ((cs : Int) - (os : Int))) r hr
          have hstart' : start + ((cs : Int) - (os : Int)) < (n : Int) := by omega
          obtain ⟨p', r'', hr'', hp1, hp2⟩ := hC hstart'
          refine ⟨?_, ?_, ?_, ?_, ?_, ?_⟩
          · intro p hp
            rcases List.mem_cons.mp hp with rfl | hp
            · refine ⟨le_refl _, by omega, le_of_lt hcs_lt⟩
            · obtain ⟨h1, h2, h3⟩ := hA p hp
              exact ⟨by omega, h2, h3⟩
          · intro t h1 h2
            by_cases hct : t < start + (cs : Int)
            · exact ⟨(start, start + (cs : Int)), List.mem_cons_self _ _, h1, hct⟩
            · obtain ⟨p, hp, hpt⟩ := hB t (by omega) h2
              exact ⟨p, List.mem_cons_of_mem _ hp, hpt⟩
          · intro _
            exact ⟨(start, start + (cs : Int)), r, rfl, rfl, hmin.symm⟩
          · intro _
            rw [hr'', List.getLast?_cons_cons, ← hr'']
            exact hD hstart'
          · rw [hr'']
            refine List.chain'_cons.mpr ⟨?_, by rw [← hr'']; exact hE⟩
            rw [hp1]
            omega
          · rw [hr'']
            refine List.chain'_cons.mpr ⟨?_, by rw [← hr'']; exact hF⟩
            rw [hp2]
            simp only []
            omega
    · rw [chunkLoop, if_neg hlt] at h
      obtain rfl : ([] : List (Int × Int)) = l := Option.some.inj h
      refine ⟨by simp, ?_, ?_, ?_, by simp, by simp⟩
      · intro t h1 h2
        exact absurd (lt_of_le_of_lt h1 h2) hlt
      · intro h'; exact absurd h' hlt
      · intro h'; exact absurd h' hlt

/-- The service fuel bound really is enough, and `createAudioChunks`
extracts the loop's result, for any buffer longer than one chunk. -/
theorem createAudioChunks_loop (n : Nat) (h : chunkSamples < n) :
    ∃ l, chunkLoop chunkSamples overlapSamples (n / strideSamples + 2) n 0 = some l ∧
      createAudioChunks n = l := by
  obtain ⟨l, hl⟩ :=
    chunkLoop_fuel_enough chunkSamples overlapSamples (by decide)
      (n / strideSamples + 1) n 0 (by
        simp only [chunkSamples, overlapSamples, strideSamples]
        push_cast
        omega)
  refine ⟨l, hl, ?_⟩
  rw [createAudioChunks, if_neg (by omega), hl]
  rfl

/-! ### `_transcribe_chunk` and the `transcribe_audio` loop (lines 136-269) -/

/-- `_transcribe_chunk` (lines 136-172). The processor/model inference is
an oracle: `.error` models an exception raised anywhere inside the `try`
block, `.ok t` models a decoded transcription `t`. The function never
raises: every exception becomes the empty string, and a successful decode
is returned `.strip()`-ed. -/
def transcribeChunk (outcome : Except Unit PyStr) : PyStr :=
  match outcome with
  | .error _ => []
  | .ok t => stripChars t

/-- `TranscriptionSegment` dataclass (lines 21-27). -/
structure TranscriptionSegment where
  text : PyStr
  start_time : ℚ
  end_time : ℚ
  confidence : Option ℚ
deriving DecidableEq

/-- `TranscriptionResult` model (lines 29-39). `processing_duration_ms`
is wall-clock time and is not modelled (fixed to 0). -/
structure TranscriptionResult where
  success : Bool
  full_text : PyStr
  segments : List TranscriptionSegment
  processing_duration_ms : Nat
  model_used : String
  audio_duration_seconds : ℚ
  chunks_processed : Nat
  error_message : Option String
  language_detected : Option String
deriving DecidableEq

/-- The overlap-removal assignment inside the loop of `transcribe_audio`:
`chunk_text` is rewritten by `reconcilePair` only when
`i > 0 and len(full_text_parts) > 0`. -/
def dedupText (i : Nat) (parts : List PyStr) (chunkText : PyStr) : PyStr :=
  if 0 < i ∧ parts ≠ [] then reconcilePair (parts.getLastD []) chunkText
  else chunkText

/-- Body of the `for i, (chunk_audio, start_time_chunk, end_time_chunk) in
enumerate(chunks)` loop of `transcribe_audio` (lines 224-249): skip empty
chunk text, remove the token overlap against the last accepted part, and
append the segment and the text part unless the result is
whitespace-only. -/
def chunkStep (acc : List PyStr × List TranscriptionSegment) (i : Nat)
    (startS endS : Int) (chunkText : PyStr) :
    List PyStr × List TranscriptionSegment :=
  if chunkText = [] then acc
  else if stripChars (dedupText i acc.1 chunkText) = [] then acc
  else (acc.1 ++ [dedupText i acc.1 chunkText],
    acc.2 ++ [⟨dedupText i acc.1 chunkText,
      (startS : ℚ) / 16000, (endS : ℚ) / 16000, none⟩])

/-- `transcribe_audio` (lines 174-269) on the success path, for a decoded
buffer of `n` samples; the per-chunk inference outcome is the oracle
`backend` indexed by chunk number. -/
def transcribeAudioModel (n : Nat) (backend : Nat → Except Unit PyStr) :
    TranscriptionResult :=
  let cks := createAudioChunks n
  let st := cks.enum.foldl
    (fun acc p => chunkStep acc p.1 p.2.1 p.2.2 (transcribeChunk (backend p.1)))
    ([], [])
  { success := true
    full_text := stripChars (joinWords st.1)
    segments := st.2
    processing_duration_ms := 0
    model_used := "NbAiLab/nb-whisper-small"
    audio_duration_seconds := (n : ℚ) / 16000
    chunks_processed := cks.length
    error_message := none
    language_detected := some ("no") }

/-! ### Token containment through the reconciliation fold -/

/-- All tokens of the accepted parts, in order. -/
def flatTokens (parts : List PyStr) : List PyStr := (parts.map words).flatten

theorem flatTokens_append (parts : List PyStr) (ct : PyStr) :
    flatTokens (parts ++ [ct]) = flatTokens parts ++ words ct := by
  simp [flatTokens]

theorem stripChars_empty_words (s : PyStr) (h : stripChars s = []) :
    words s = [] := by
  rw [← words_strip s, h, words_nil]

theorem sfx_append_left {a c : List PyStr} (b : List PyStr) (h : a <:+ c) :
    a <:+ b ++ c := by
  rcases h with ⟨s, rfl⟩
  exact ⟨b ++ s, by simp⟩

/-- The tokens of the last accepted part are a suffix of all accepted
tokens. -/
theorem getLastD_words_sfx (parts : List PyStr) (h : parts ≠ []) :
    words (parts.getLastD []) <:+ flatTokens parts := by
  induction parts with
  | nil => exact absurd rfl h
  | cons p rest ih =>
    cases rest with
    | nil =>
      show words p <:+ flatTokens [p]
      simp [flatTokens]
    | cons q rest' =>
      have h2 : (p :: q :: rest').getLastD [] = (q :: rest').getLastD [] := rfl
      have hf : flatTokens (p :: q :: rest') = words p ++ flatTokens (q :: rest') := by
        simp [flatTokens]
      rw [h2, hf]
      exact sfx_append_left (words p) (ih (by simp))

theorem words_reconcile_some (prevPart ct0 : PyStr) (j : Nat)
    (hscan : scanOverlap (prevWindow prevPart) (words ct0) = some j) :
    words (reconcilePair prevPart ct0) = (words ct0).drop (j + 1) := by
  rw [reconcilePair, hscan]
  exact words_join _ fun w hw =>
    words_mem_clean ct0 w (List.mem_of_mem_drop hw)

/-- After a step on the stripped backend text `t`, the tokens of `t` are
a suffix of the accepted tokens. -/
theorem chunkStep_ok_sfx (acc : List PyStr × List TranscriptionSegment)
    (i : Nat) (s e : Int) (t : PyStr) :
    words t <:+ flatTokens ((chunkStep acc i s e (stripChars t)).1) := by
  by_cases h0 : stripChars t = []
  · have hw : words t = [] := stripChars_empty_words t h0
    rw [hw]
    exact List.nil_suffix
  · have hwt : words (stripChars t) = words t := words_strip t
    by_cases hskip : stripChars (dedupText i acc.1 (stripChars t)) = []
    · have hres : chunkStep acc i s e (stripChars t) = acc := by
        rw [chunkStep, if_neg h0, if_pos hskip]
      rw [hres]
      have hwd : words (dedupText i acc.1 (stripChars t)) = [] :=
        stripChars_empty_words _ hskip
      by_cases hP : 0 < i ∧ acc.1 ≠ []
      · rw [dedupText, if_pos hP] at hwd
        rcases hscan : scanOverlap (prevWindow (acc.1.getLastD []))
            (words (stripChars t)) with _ | j
        · rw [reconcilePair, hscan] at hwd
          rw [← hwt, hwd]
          exact List.nil_suffix
        · rw [words_reconcile_some _ _ j hscan] at hwd
          obtain ⟨hj, heq, _⟩ := scanOverlap_some_spec _ _ j hscan
          have hsplit : words (stripChars t) =
              (words (stripChars t)).take (j + 1) ++
                (words (stripChars t)).drop (j + 1) :=
            (List.take_append_drop _ _).symm
          rw [hwd, List.append_nil, ← heq] at hsplit
          have hd1 : (prevWindow (acc.1.getLastD [])).drop
              ((prevWindow (acc.1.getLastD [])).length - (j + 1)) <:+
                words (acc.1.getLastD []) :=
            (drop_sfx _ _).trans (drop_sfx _ _)
          have hd2 := hd1.trans (getLastD_words_sfx acc.1 hP.2)
          rw [← hwt, hsplit]
          exact hd2
      · rw [dedupText, if_neg hP] at hwd
        rw [← hwt, hwd]
        exact List.nil_suffix
    · have hres : (chunkStep acc i s e (stripChars t)).1 =
          acc.1 ++ [dedupText i acc.1 (stripChars t)] := by
        rw [chunkStep, if_neg h0, if_neg hskip]
      rw [hres, flatTokens_append]
      by_cases hP : 0 < i ∧ acc.1 ≠ []
      · rw [dedupText, if_pos hP]
        rcases hscan : scanOverlap (prevWindow (acc.1.getLastD []))
            (words (stripChars t)) with _ | j
        · rw [reconcilePair, hscan, hwt]
          exact List.suffix_append _ _
        · rw [words_reconcile_some _ _ j hscan]
          obtain ⟨hj, heq, _⟩ := scanOverlap_some_spec _ _ j hscan
          have hsplit : words (stripChars t) =
              (words (stripChars t)).take (j + 1) ++
                (words (stripChars t)).drop (j + 1) :=
            (List.take_append_drop _ _).symm
          rw [← heq] at hsplit
          have hd1 : (prevWindow (acc.1.getLastD [])).drop
              ((prevWindow (acc.1.getLastD [])).length - (j + 1)) <:+
                words (acc.1.getLastD []) :=
            (drop_sfx _ _).trans (drop_sfx _ _)
          have hd2 := hd1.trans (getLastD_words_sfx acc.1 hP.2)
          rw [← hwt]
          nth_rewrite 1 [hsplit]
          exact sfx_append_right hd2
      · rw [dedupText, if_neg hP, hwt]
        exact List.suffix_append _ _

theorem chunkStep_flat_mono (acc : List PyStr × List TranscriptionSegment)
    (i : Nat) (s e : Int) (ct0 : PyStr) :
    ∃ r, flatTokens ((chunkStep acc i s e ct0).1) = flatTokens acc.1 ++ r := by
  by_cases h0 : ct0 = []
  · exact ⟨[], by rw [chunkStep, if_pos h0, List.append_nil]⟩
  · by_cases hskip : stripChars (dedupText i acc.1 ct0) = []
    · exact ⟨[], by rw [chunkStep, if_neg h0, if_pos hskip, List.append_nil]⟩
    · refine ⟨words (dedupText i acc.1 ct0), ?_⟩
      rw [chunkStep, if_neg h0, if_neg hskip]
      exact flatTokens_append _ _

theorem fold_flat_mono (backend : Nat → Except Unit PyStr) :
    ∀ (l : List (Nat × (Int × Int))) (acc : List PyStr × List TranscriptionSegment),
      ∃ r, flatTokens ((l.foldl (fun a p =>
          chunkStep a p.1 p.2.1 p.2.2 (transcribeChunk (backend p.1))) acc).1) =
        flatTokens acc.1 ++ r := by
  intro l
  induction l with
  | nil => exact fun acc => ⟨[], by simp⟩
  | cons x xs ih =>
    intro acc
    obtain ⟨r1, h1⟩ := chunkStep_flat_mono acc x.1 x.2.1 x.2.2
      (transcribeChunk (backend x.1))
    obtain ⟨r2, h2⟩ := ih (chunkStep acc x.1 x.2.1 x.2.2
      (transcribeChunk (backend x.1)))
    refine ⟨r1 ++ r2, ?_⟩
    rw [List.foldl_cons, h2, h1, List.append_assoc]

/-- Through the whole reconciliation fold, every successfully transcribed
chunk's tokens appear contiguously in the accepted tokens. -/
theorem fold_contains (backend : Nat → Except Unit PyStr) :
    ∀ (l : List (Nat × (Int × Int))) (acc : List PyStr × List TranscriptionSegment),
      ∀ p ∈ l, ∀ t, backend p.1 = Except.ok t →
        words t <:+: flatTokens ((l.foldl (fun a q =>
          chunkStep a q.1 q.2.1 q.2.2 (transcribeChunk (backend q.1))) acc).1) := by
  intro l
  induction l with
  | nil => intro acc p hp; exact absurd hp (by simp)
  | cons x xs ih =>
    intro acc p hp t ht
    rw [List.foldl_cons]
    rcases List.mem_cons.mp hp with rfl | hp
    · have hstep : transcribeChunk (backend p.1) = stripChars t := by
        rw [ht]; rfl
      have hsfx := chunkStep_ok_sfx acc p.1 p.2.1 p.2.2 t
      rw [← hstep] at hsfx
      obtain ⟨r, hr⟩ := fold_flat_mono backend xs
        (chunkStep acc p.1 p.2.1 p.2.2 (transcribeChunk (backend p.1)))
      rw [hr]
      exact inf_append_right (sfx_to_inf hsfx)
    · exact ih _ p hp t ht

/-! ### Database records and the transcription router
(`transcription_router.py`) -/

/-- The `Session` columns used by the router (`db_models.py`). -/
structure SessionRec where
  id : String
  filename : String
  converted_path : String
  processing_status : String
deriving DecidableEq

/-- The `Transcript` columns used by the router. -/
structure TranscriptRec where
  id : String
  session_id : String
  full_text : PyStr
  segments : List TranscriptionSegment
  language : Option String
  model_version : String
  processing_duration_ms : Nat
deriving DecidableEq

/-- The persistent state touched by the router. -/
structure DB where
  sessions : List SessionRec
  transcripts : List TranscriptRec
deriving DecidableEq

/-- `db.query(Session).filter(Session.filename == filename).first()`. -/
def findSessionByFilename (db : DB) (filename : String) : Option SessionRec :=
  db.sessions.find? (fun s => s.filename == filename)

/-- `db.query(Transcript).filter(Transcript.session_id == sid).first()`. -/
def findTranscriptBySession (db : DB) (sid : String) : Option TranscriptRec :=
  db.transcripts.find? (fun t => t.session_id == sid)

/-- Python `x or d` on strings; a `None` column is modelled as `[]`. -/
def pyOr (x d : PyStr) : PyStr := if x = [] then d else x

def pyOrStr (x d : String) : String := if x = "" then d else x

def pyOrNat (x d : Nat) : Nat := if x = 0 then d else x

/-- `TranscriptionResponse` (router lines 23-33). -/
structure TranscriptionResponse where
  session_id : String
  success : Bool
  full_text : PyStr
  segments_count : Nat
  processing_duration_ms : Nat
  audio_duration_seconds : ℚ
  chunks_processed : Nat
  model_used : String
  error_message : Option String
deriving DecidableEq

/-- An `HTTPException` raised by the router. -/
structure HTTPErr where
  status_code : Nat
  detail : String
deriving DecidableEq

/-- Outcome of one `POST /transcription/transcribe/{filename}` request:
the HTTP-level result, the final database state, and how many times
`transcription_service.transcribe_audio` (hence model inference) ran. -/
structure RouteOutcome where
  response : Except HTTPErr TranscriptionResponse
  db : DB
  inference_calls : Nat

/-- `Path("audio_files/converted")/filename` preferred, else
`Path("audio_files/originals")/filename` (router lines 53-62); the two
booleans are the `.exists()` oracle for the two locations. -/
def resolveAudioPath (filename : String) (convertedExists originalsExists : Bool) :
    Option String :=
  if convertedExists then some ("audio_files/converted/" ++ filename)
  else if originalsExists then some ("audio_files/originals/" ++ filename)
  else none

/-- `session.processing_status = status` on the ORM object with this id,
followed by `db.commit()`. -/
def setSessionStatus (db : DB) (sid : String) (status : String) : DB :=
  { db with sessions := db.sessions.map fun s =>
      if s.id == sid then { s with processing_status := status } else s }

/-- Router lines 106-184: persist the pipeline result and build the
response for session `sid`; `tid` is the uuid used if a new `Transcript`
row has to be created. On success the transcript upsert and the
`transcribed` status update are committed together; on failure only the
`error` status is committed. -/
def persistResult (sid tid : String) (result : TranscriptionResult) (db : DB) :
    Except HTTPErr TranscriptionResponse × DB :=
  if result.success then
    let db1 : DB :=
      match findTranscriptBySession db sid with
      | some t =>
        { db with transcripts := db.transcripts.map fun tr =>
            if tr.id == t.id then
              { tr with
                full_text := result.full_text
                segments := result.segments
                language := result.language_detected
                model_version := result.model_used
                processing_duration_ms := result.processing_duration_ms }
            else tr }
      | none =>
        { db with transcripts := db.transcripts ++
            [⟨tid, sid, result.full_text, result.segments,
              result.language_detected, result.model_used,
              result.processing_duration_ms⟩] }
    (Except.ok
      { session_id := sid
        success := true
        full_text := result.full_text
        segments_count := result.segments.length
        processing_duration_ms := result.processing_duration_ms
        audio_duration_seconds := result.audio_duration_seconds
        chunks_processed := result.chunks_processed
        model_used := result.model_used
        error_message := none },
      setSessionStatus db1 sid ("transcribed"))
  else
    (Except.ok
      { session_id := sid
        success := false
        full_text := []
        segments_count := 0
        processing_duration_ms := result.processing_duration_ms
        audio_duration_seconds := 0
        chunks_processed := 0
        model_used := result.model_used
        error_message := result.error_message },
      setSessionStatus db sid ("error"))

/-- `transcribe_audio_file` (router lines 36-193). `result` is the value
`transcription_service.transcribe_audio(str(audio_path))` would return
for this file, and `newSessionId`/`newTranscriptId` are the
`uuid.uuid4()` oracles. -/
def transcribeRoute (filename : String) (convertedExists originalsExists : Bool)
    (result : TranscriptionResult) (newSessionId newTranscriptId : String)
    (db : DB) : RouteOutcome :=
  match resolveAudioPath filename convertedExists originalsExists with
  | none =>
    ⟨Except.error ⟨404, "Audio file not found: " ++ filename⟩, db, 0⟩
  | some path =>
    match findSessionByFilename db filename with
    | some s =>
      match findTranscriptBySession db s.id with
      | some t =>
        ⟨Except.ok
          { session_id := s.id
            success := true
            full_text := pyOr t.full_text []
            segments_count := if t.segments = [] then 0 else t.segments.length
            processing_duration_ms := pyOrNat t.processing_duration_ms 0
            audio_duration_seconds := 0
            chunks_processed := 0
            model_used := pyOrStr t.model_version ("unknown")
            error_message := none }, db, 0⟩
      | none =>
        let pr := persistResult s.id newTranscriptId result db
        ⟨pr.1, pr.2, 1⟩
    | none =>
      let ns : SessionRec := ⟨newSessionId, filename, path, "transcribing"⟩
      let db1 : DB := { db with sessions := db.sessions ++ [ns] }
      let pr := persistResult newSessionId newTranscriptId result db1
      ⟨pr.1, pr.2, 1⟩

/-! ### Dependency status (`check_dependencies`, service lines 303-334,
and the `/status` endpoint, router lines 195-206) -/

/-- Environment flags behind `check_dependencies`: importability of
torch/transformers/librosa, `torch.cuda.is_available()`, and whether the
NB-Whisper processor can be fetched. -/
structure DepsEnv where
  torch_ok : Bool
  transformers_ok : Bool
  librosa_ok : Bool
  cuda_available : Bool
  nb_whisper_model_ok : Bool
deriving DecidableEq

/-- `check_dependencies` (service lines 303-334): the returned dict. -/
def check_dependencies (env : DepsEnv) : List (String × Bool) :=
  [("torch", env.torch_ok), ("transformers", env.transformers_ok),
   ("librosa", env.librosa_ok), ("cuda", env.cuda_available),
   ("nb_whisper_model", env.nb_whisper_model_ok)]

/-- `"ready" if all(dependencies.values()) else "not_ready"`
(router line 203). -/
def transcriptionStatus (env : DepsEnv) : String :=
  if (check_dependencies env).all (fun d => d.2) then "ready" else "not_ready"

/-- `self.device = "cuda:0" if torch.cuda.is_available() else "cpu"`
(service line 47). -/
def deviceOf (cuda_available : Bool) : String :=
  if cuda_available then "cuda:0" else "cpu"

/-! ### Helper lemmas about the database operations -/

theorem pyOr_nil (x : PyStr) : pyOr x [] = x := by
  rw [pyOr]
  split
  · next h => exact h.symm
  · rfl

theorem find?_append_of_none {α : Type} (p : α → Bool) (l1 l2 : List α)
    (h : l1.find? p = none) : (l1 ++ l2).find? p = l2.find? p := by
  induction l1 with
  | nil => rfl
  | cons a l ih =>
    rcases ha : p a with _ | _
    · rw [List.find?_cons_of_neg _ (by simp [ha])] at h
      rw [List.cons_append, List.find?_cons_of_neg _ (by simp [ha])]
      exact ih h
    · rw [List.find?_cons_of_pos _ ha] at h
      exact absurd h (by simp)

theorem find?_map_filename (g : SessionRec → SessionRec)
    (hg : ∀ s, (g s).filename = s.filename) (f : String) :
    ∀ l : List SessionRec,
      (l.map g).find? (fun s => s.filename == f) =
        (l.find? (fun s => s.filename == f)).map g := by
  intro l
  induction l with
  | nil => rfl
  | cons a l ih =>
    simp only [List.map_cons, List.find?]
    rw [hg a]
    rcases ha : (a.filename == f) with _ | _
    · simp only [ha, ih]
    · simp only [ha, Option.map_some']

theorem setSessionStatus_transcripts (db : DB) (sid st : String) :
    (setSessionStatus db sid st).transcripts = db.transcripts := rfl

theorem statusUpdater_filename (sid st : String) (s : SessionRec) :
    ((fun s => if s.id == sid then { s with processing_status := st } else s) s).filename
      = s.filename := by
  by_cases h : (s.id == sid) = true
  · simp [h]
  · simp [h]

theorem statusUpdater_id (sid st : String) (s : SessionRec) :
    ((fun s => if s.id == sid then { s with processing_status := st } else s) s).id
      = s.id := by
  by_cases h : (s.id == sid) = true
  · simp [h]
  · simp [h]

theorem findSession_setStatus (db : DB) (sid st f : String) :
    findSessionByFilename (setSessionStatus db sid st) f =
      (findSessionByFilename db f).map
        (fun s => if s.id == sid then { s with processing_status := st } else s) := by
  unfold findSessionByFilename setSessionStatus
  exact find?_map_filename _ (statusUpdater_filename sid st) f db.sessions

theorem findTranscript_setStatus (db : DB) (sid st sid' : String) :
    findTranscriptBySession (setSessionStatus db sid st) sid' =
      findTranscriptBySession db sid' := rfl

/-! ### Branch characterizations of the router -/

theorem transcribeRoute_notfound (f : String) (cv og : Bool)
    (r : TranscriptionResult) (sid tid : String) (db : DB)
    (h : resolveAudioPath f cv og = none) :
    transcribeRoute f cv og r sid tid db =
      ⟨Except.error ⟨404, "Audio file not found: " ++ f⟩, db, 0⟩ := by
  rw [transcribeRoute, h]

theorem transcribeRoute_idem (f : String) (cv og : Bool)
    (r : TranscriptionResult) (sid tid : String) (db : DB) (path : String)
    (s : SessionRec) (t : TranscriptRec)
    (h1 : resolveAudioPath f cv og = some path)
    (h2 : findSessionByFilename db f = some s)
    (h3 : findTranscriptBySession db s.id = some t) :
    transcribeRoute f cv og r sid tid db =
      ⟨Except.ok
        { session_id := s.id
          success := true
          full_text := pyOr t.full_text []
          segments_count := if t.segments = [] then 0 else t.segments.length
          processing_duration_ms := pyOrNat t.processing_duration_ms 0
          audio_duration_seconds := 0
          chunks_processed := 0
          model_used := pyOrStr t.model_version ("unknown")
          error_message := none }, db, 0⟩ := by
  simp only [transcribeRoute, h1, h2, h3]

theorem transcribeRoute_run_existing (f : String) (cv og : Bool)
    (r : TranscriptionResult) (sid tid : String) (db : DB) (path : String)
    (s : SessionRec)
    (h1 : resolveAudioPath f cv og = some path)
    (h2 : findSessionByFilename db f = some s)
    (h3 : findTranscriptBySession db s.id = none) :
    transcribeRoute f cv og r sid tid db =
      ⟨(persistResult s.id tid r db).1, (persistResult s.id tid r db).2, 1⟩ := by
  simp only [transcribeRoute, h1, h2, h3]

theorem transcribeRoute_run_new (f : String) (cv og : Bool)
    (r : TranscriptionResult) (sid tid : String) (db : DB) (path : String)
    (h1 : resolveAudioPath f cv og = some path)
    (h2 : findSessionByFilename db f = none) :
    transcribeRoute f cv og r sid tid db =
      ⟨(persistResult sid tid r
          { db with sessions := db.sessions ++ [⟨sid, f, path, "transcribing"⟩] }).1,
        (persistResult sid tid r
          { db with sessions := db.sessions ++ [⟨sid, f, path, "transcribing"⟩] }).2,
        1⟩ := by
  simp only [transcribeRoute, h1, h2]

theorem persistResult_success_new (sid tid : String) (r : TranscriptionResult)
    (db : DB) (hs : r.success = true)
    (ht : findTranscriptBySession db sid = none) :
    persistResult sid tid r db =
      (Except.ok
        { session_id := sid
          success := true
          full_text := r.full_text
          segments_count := r.segments.length
          processing_duration_ms := r.processing_duration_ms
          audio_duration_seconds := r.audio_duration_seconds
          chunks_processed := r.chunks_processed
          model_used := r.model_used
          error_message := none },
        setSessionStatus
          { db with transcripts := db.transcripts ++
              [⟨tid, sid, r.full_text, r.segments, r.language_detected,
                r.model_used, r.processing_duration_ms⟩] }
          sid ("transcribed")) := by
  rw [persistResult, if_pos hs, ht]

theorem persistResult_success_update (sid tid : String)
    (r : TranscriptionResult) (db : DB) (t0 : TranscriptRec)
    (hs : r.success = true)
    (ht : findTranscriptBySession db sid = some t0) :
    persistResult sid tid r db =
      (Except.ok
        { session_id := sid
          success := true
          full_text := r.full_text
          segments_count := r.segments.length
          processing_duration_ms := r.processing_duration_ms
          audio_duration_seconds := r.audio_duration_seconds
          chunks_processed := r.chunks_processed
          model_used := r.model_used
          error_message := none },
        setSessionStatus
          { db with transcripts := db.transcripts.map fun tr =>
              if tr.id == t0.id then
                { tr with
                  full_text := r.full_text
                  segments := r.segments
                  language := r.language_detected
                  model_version := r.model_used
                  processing_duration_ms := r.processing_duration_ms }
              else tr }
          sid ("transcribed")) := by
  rw [persistResult, if_pos hs, ht]

theorem persistResult_failure (sid tid : String) (r : TranscriptionResult)
    (db : DB) (hs : r.success = false) :
    persistResult sid tid r db =
      (Except.ok
        { session_id := sid
          success := false
          full_text := []
          segments_count := 0
          processing_duration_ms := r.processing_duration_ms
          audio_duration_seconds := 0
          chunks_processed := 0
          model_used := r.model_used
          error_message := r.error_message },
        setSessionStatus db sid ("error")) := by
  rw [persistResult, if_neg (by rw [hs]; exact Bool.false_ne_true)]

/-! ### Claim theorems -/

/-- C6: for every filename that resolves to no existing audio file
(neither the converted nor the originals location), the request fails
with the NotFound-class HTTP 404 error carrying an "Audio file not
found" message, and the database is returned unchanged — in particular
no `Session` row is created — and no inference runs. -/
theorem claim_C6_missing_file (filename : String) (result : TranscriptionResult)
    (sid tid : String) (db : DB) :
    transcribeRoute filename false false result sid tid db =
      ⟨Except.error ⟨404, "Audio file not found: " ++ filename⟩, db, 0⟩ :=
  transcribeRoute_notfound filename false false result sid tid db rfl

/-- C9 (implicit): on the idempotent return path (an existing `Transcript`
is found for the session found by filename), the response always reports
`audio_duration_seconds = 0.0` and `chunks_processed = 0` regardless of
the actual audio and of the stored record, while `session_id` and the
stored full text are returned; the database is unchanged and no
inference runs. -/
theorem claim_C9_idempotent_path_zero_fields (filename : String)
    (conv orig : Bool) (result : TranscriptionResult) (sid tid : String)
    (db : DB) (path : String) (s : SessionRec) (t : TranscriptRec)
    (hfile : resolveAudioPath filename conv orig = some path)
    (hs : findSessionByFilename db filename = some s)
    (ht : findTranscriptBySession db s.id = some t) :
    ∃ resp, (transcribeRoute filename conv orig result sid tid db).response =
        Except.ok resp ∧
      resp.audio_duration_seconds = 0 ∧ resp.chunks_processed = 0 ∧
      resp.session_id = s.id ∧ resp.full_text = pyOr t.full_text [] ∧
      (transcribeRoute filename conv orig result sid tid db).db = db ∧
      (transcribeRoute filename conv orig result sid tid db).inference_calls = 0 := by
  rw [transcribeRoute_idem filename conv orig result sid tid db path s t hfile hs ht]
  exact ⟨_, rfl, rfl, rfl, rfl, rfl, rfl, rfl⟩

def sampleResult : TranscriptionResult :=
  ⟨true, ("hei verden").toList, [], 5, "NbAiLab/nb-whisper-small", 65, 3, none,
    some ("no")⟩

def wSession : SessionRec := ⟨"sid-1", "clip.wav", "p", "transcribed"⟩

def wTranscript : TranscriptRec :=
  ⟨"tid-1", "sid-1", ("hei").toList, [], none, "m", 7⟩

def wDB : DB := ⟨[wSession], [wTranscript]⟩

theorem claim_C9_witness :
    ∃ resp, (transcribeRoute ("clip.wav") true false sampleResult ("s2") ("t2")
        wDB).response = Except.ok resp ∧
      resp.audio_duration_seconds = 0 ∧ resp.chunks_processed = 0 ∧
      resp.session_id = wSession.id ∧
      resp.full_text = pyOr wTranscript.full_text [] ∧
      (transcribeRoute ("clip.wav") true false sampleResult ("s2") ("t2")
        wDB).db = wDB ∧
      (transcribeRoute ("clip.wav") true false sampleResult ("s2") ("t2")
        wDB).inference_calls = 0 :=
  claim_C9_idempotent_path_zero_fields ("clip.wav") true false sampleResult
    ("s2") ("t2") wDB ("audio_files/converted/" ++ "clip.wav") wSession
    wTranscript rfl (by decide) (by decide)

/-- C10 (implicit): the `/status` endpoint reports "ready" exactly when
every dependency flag — including `torch.cuda.is_available()` — is true;
hence on a host without CUDA it always reports "not_ready", even though
the service itself is initialised with the CPU device. -/
theorem claim_C10_cuda_gates_ready (env : DepsEnv) :
    (transcriptionStatus env = "ready" ↔
      (env.torch_ok = true ∧ env.transformers_ok = true ∧
        env.librosa_ok = true ∧ env.cuda_available = true ∧
        env.nb_whisper_model_ok = true)) ∧
    (env.cuda_available = false →
      transcriptionStatus env = "not_ready" ∧
        deviceOf env.cuda_available = "cpu") := by
  obtain ⟨t, tr, li, cu, nb⟩ := env
  cases t <;> cases tr <;> cases li <;> cases cu <;> cases nb <;> decide

theorem claim_C10_witness :
    transcriptionStatus ⟨true, true, true, false, true⟩ = "not_ready" ∧
      deviceOf false = "cpu" :=
  (claim_C10_cuda_gates_ready ⟨true, true, true, false, true⟩).2 rfl

/-- C2 counterexample: with accepted text "c a b a" and new chunk text
"a b a was red", BOTH the one-token run ("a") and the three-token run
("a b a") match as suffix/prefix; the claim's longest-first scan would
drop three tokens and produce "was red", but the code scans `j = 0, 1, 2`
upward and drops only ONE token, producing "b a was red". -/
theorem claim_C2_counterexample :
    (prevWindow (("c a b a").toList)).drop
        ((prevWindow (("c a b a").toList)).length - 3) =
      (words (("a b a was red").toList)).take 3 ∧
    (prevWindow (("c a b a").toList)).drop
        ((prevWindow (("c a b a").toList)).length - 1) =
      (words (("a b a was red").toList)).take 1 ∧
    reconcilePair (("c a b a").toList) (("a b a was red").toList) =
      ("b a was red").toList ∧
    reconcilePair (("c a b a").toList) (("a b a was red").toList) ≠
      ("was red").toList := by
  refine ⟨by decide, by decide, by decide, by decide⟩

/-- C2 amended: the reconciliation scans the candidate overlap lengths
from SHORTEST to longest — `j` runs upward over
`range(min(len(prev_words), len(chunk_words)))` — and the FIRST
(i.e. shortest) suffix/prefix match determines the `j + 1` tokens dropped
from the new chunk text; when no length matches the text is unchanged. -/
theorem claim_C2_shortest_overlap_wins (prevPart chunkText : PyStr) :
    (∀ j, scanOverlap (prevWindow prevPart) (words chunkText) = some j →
      j < min (prevWindow prevPart).length (words chunkText).length ∧
      (prevWindow prevPart).drop ((prevWindow prevPart).length - (j + 1)) =
        (words chunkText).take (j + 1) ∧
      (∀ i, i < j →
        (prevWindow prevPart).drop ((prevWindow prevPart).length - (i + 1)) ≠
          (words chunkText).take (i + 1)) ∧
      reconcilePair prevPart chunkText =
        joinWords ((words chunkText).drop (j + 1))) ∧
    (scanOverlap (prevWindow prevPart) (words chunkText) = none →
      reconcilePair prevPart chunkText = chunkText) := by
  constructor
  · intro j hscan
    obtain ⟨h1, h2, h3⟩ := scanOverlap_some_spec _ _ j hscan
    exact ⟨h1, h2, h3, by rw [reconcilePair, hscan]⟩
  · intro hscan
    rw [reconcilePair, hscan]

theorem claim_C2_witness :
    reconcilePair (("c a b a").toList) (("a b a was red").toList) =
      joinWords ((words (("a b a was red").toList)).drop 1) :=
  ((claim_C2_shortest_overlap_wins (("c a b a").toList)
    (("a b a was red").toList)).1 0 (by decide)).2.2.2

/-- C3: for every buffer of `n` samples (duration `n / 16000` seconds)
and the fixed configuration (30 s chunks = 480000 samples, 1 s overlap
= 16000 samples), the produced sample ranges lie inside the buffer and
cover `[0, n)` with no gaps, end positions are monotone, the final end
equals the buffer length, and every pair of consecutive chunks overlaps
by exactly 16000 samples, i.e. exactly one second. -/
theorem claim_C3_chunk_coverage (n : Nat) :
    (∀ p ∈ createAudioChunks n, 0 ≤ p.1 ∧ p.1 ≤ p.2 ∧ p.2 ≤ (n : Int)) ∧
    (∀ t : Int, 0 ≤ t → t < (n : Int) →
      ∃ p ∈ createAudioChunks n, p.1 ≤ t ∧ t < p.2) ∧
    List.Chain' (fun a b => a.2 ≤ b.2) (createAudioChunks n) ∧
    (createAudioChunks n).getLast?.map Prod.snd = some (n : Int) ∧
    List.Chain' (fun a b => a.2 = b.1 + (overlapSamples : Int))
      (createAudioChunks n) ∧
    List.Chain' (fun a b => (a.2 : ℚ) / 16000 = (b.1 : ℚ) / 16000 + 1)
      (createAudioChunks n) := by
  have hsec : ∀ l, List.Chain' (fun a b => a.2 = b.1 + (overlapSamples : Int)) l →
      List.Chain' (fun a b : Int × Int =>
        (a.2 : ℚ) / 16000 = (b.1 : ℚ) / 16000 + 1) l := by
    intro l hl
    refine hl.imp ?_
    intro a b hab
    rw [hab]
    have hos : (overlapSamples : Int) = 16000 := rfl
    rw [hos]
    push_cast
    rw [add_div]
    norm_num
  by_cases hn : n ≤ chunkSamples
  · have hl : createAudioChunks n = [(0, (n : Int))] := by
      rw [createAudioChunks, if_pos hn]
    rw [hl]
    refine ⟨?_, ?_, by simp, by simp, by simp, by simp⟩
    · intro p hp
      rcases List.mem_singleton.mp hp with rfl
      exact ⟨le_refl _, by omega, le_refl _⟩
    · intro t h1 h2
      exact ⟨(0, (n : Int)), by simp, h1, h2⟩
  · obtain ⟨l, hl, heq⟩ := createAudioChunks_loop n (by omega)
    obtain ⟨hA, hB, hC, hD, hE, hF⟩ :=
      chunkLoop_spec chunkSamples overlapSamples (by decide) _ n 0 l hl
    have h0n : (0 : Int) < (n : Int) := by
      have : chunkSamples < n := by omega
      have h480 : (480000 : Nat) < n := this
      omega
    rw [heq]
    refine ⟨?_, ?_, hF, hD h0n, hE, hsec l hE⟩
    · intro p hp
      obtain ⟨h1, h2, h3⟩ := hA p hp
      exact ⟨h1, le_of_lt h2, h3⟩
    · intro t h1 h2
      exact hB t h1 h2

theorem claim_C3_witness :
    ∃ p ∈ createAudioChunks 1040000, p.1 ≤ 999999 ∧ (999999 : Int) < p.2 :=
  (claim_C3_chunk_coverage 1040000).2.1 999999 (by norm_num) (by norm_num)

/-- With `chunk_samples = overlap_samples` (stride 0), the loop never
finishes on a buffer longer than one chunk: `start_sample` never
advances, so no amount of fuel produces a result. -/
theorem chunkLoop_diverges_zero_stride (fuel : Nat) :
    chunkLoop 2 2 fuel 5 0 = none := by
  induction fuel with
  | zero => rfl
  | succ fuel ih =>
    rw [chunkLoop]
    rw [if_pos (by norm_num), if_neg (by norm_num)]
    have harg : (0 : Int) + (((2 : Nat) : Int) - ((2 : Nat) : Int)) = 0 := by
      norm_num
    rw [harg, ih]

/-- C7 counterexample: a configuration with `overlap_samples =
chunk_samples = 2` on a 5-sample buffer is not rejected — the embedded
loop (whose only outcomes are a chunk list or "still running") is still
running after 1000 iterations, rather than returning any error. -/
theorem claim_C7_counterexample : chunkLoop 2 2 1000 5 0 = none :=
  chunkLoop_diverges_zero_stride 1000

/-- C7 amended: no validation of the chunk configuration exists anywhere
in the service; with a non-positive stride the chunking loop never
terminates instead of being rejected with an error. Chunking only ever
terminates because the configuration is hard-coded in `__init__` to
30 s chunks and 1 s overlap (positive stride), for which the loop
finishes within the fuel bound on every finite buffer. -/
theorem claim_C7_fixed_config_terminates :
    (∀ fuel, chunkLoop 2 2 fuel 5 0 = none) ∧
    (∀ n : Nat, chunkSamples < n →
      ∃ l, chunkLoop chunkSamples overlapSamples (n / strideSamples + 2) n 0 =
          some l ∧ createAudioChunks n = l) ∧
    (∀ n : Nat, n ≤ chunkSamples → createAudioChunks n = [(0, (n : Int))]) := by
  refine ⟨chunkLoop_diverges_zero_stride, ?_, ?_⟩
  · intro n hn
    exact createAudioChunks_loop n hn
  · intro n hn
    rw [createAudioChunks, if_pos hn]

theorem claim_C7_witness :
    ∃ l, chunkLoop chunkSamples overlapSamples (1040000 / strideSamples + 2)
        1040000 0 = some l ∧ createAudioChunks 1040000 = l :=
  claim_C7_fixed_config_terminates.2.1 1040000 (by decide)

/-- C8: a 65-second mono buffer at 16 kHz (1040000 samples) with the
fixed 30 s / 1 s configuration yields exactly three chunks with sample
ranges [0,480000), [464000,944000), [928000,1040000) — i.e. seconds
[0,30), [29,59), [58,65) — and the resulting `TranscriptionResult`
reports `chunks_processed = 3` whatever the per-chunk inference does. -/
theorem claim_C8_end_to_end :
    createAudioChunks 1040000 =
      [(0, 480000), (464000, 944000), (928000, 1040000)] ∧
    (createAudioChunks 1040000).map
        (fun p => ((p.1 : ℚ) / 16000, (p.2 : ℚ) / 16000)) =
      [(0, 30), (29, 59), (58, 65)] ∧
    ∀ backend : Nat → Except Unit PyStr,
      (transcribeAudioModel 1040000 backend).chunks_processed = 3 := by
  have h1 : createAudioChunks 1040000 =
      [(0, 480000), (464000, 944000), (928000, 1040000)] := by decide
  refine ⟨h1, ?_, ?_⟩
  · rw [h1]
    simp only [List.map_cons, List.map_nil]
    norm_num
  · intro backend
    show (createAudioChunks 1040000).length = 3
    rw [h1]
    rfl

/-- C5: `_transcribe_chunk` never raises — a backend exception or a
whitespace-only decode yields the empty string — and whatever mix of
chunk outcomes occurs, `transcribe_audio` still returns `success = true`
with `chunks_processed` equal to the total number of chunks created,
while every successfully decoded chunk's tokens appear contiguously
(token-level containment: `" ".join` normalises whitespace) in the final
full text. -/
theorem claim_C5_graceful_chunk_failure (n : Nat)
    (backend : Nat → Except Unit PyStr) :
    (∀ e, transcribeChunk (Except.error e) = []) ∧
    (∀ t, stripChars t = [] → transcribeChunk (Except.ok t) = []) ∧
    (transcribeAudioModel n backend).success = true ∧
    (transcribeAudioModel n backend).chunks_processed =
      (createAudioChunks n).length ∧
    ∀ p ∈ (createAudioChunks n).enum, ∀ t, backend p.1 = Except.ok t →
      words t <:+: words (transcribeAudioModel n backend).full_text := by
  refine ⟨fun e => rfl, ?_, rfl, rfl, ?_⟩
  · intro t ht
    show stripChars t = []
    exact ht
  · intro p hp t ht
    have hfull : words (transcribeAudioModel n backend).full_text =
        flatTokens (((createAudioChunks n).enum.foldl
          (fun acc q => chunkStep acc q.1 q.2.1 q.2.2
            (transcribeChunk (backend q.1))) ([], [])).1) := by
      show words (stripChars (joinWords _)) = _
      rw [words_strip, words_join_flat]
      rfl
    rw [hfull]
    exact fold_contains backend _ _ p hp t ht

def witnessBackend : Nat → Except Unit PyStr := fun i =>
  if i = 1 then Except.error () else Except.ok (("hei verden").toList)

theorem claim_C5_witness :
    words (("hei verden").toList) <:+:
      words (transcribeAudioModel 1040000 witnessBackend).full_text :=
  (claim_C5_graceful_chunk_failure 1040000 witnessBackend).2.2.2.2
    (0, (0, 480000)) (by decide) (("hei verden").toList) rfl

/-- C1: starting from a state with no transcript for `filename` (no
session, or a session without transcript), a first successful request
runs inference exactly once, and a second request for the same filename
returns `success = true`, the same `session_id` and the same full
transcript text as the first response, without invoking inference at
all. `hfresh` models freshness of the generated uuid. -/
theorem claim_C1_idempotent_transcription (filename : String)
    (conv1 orig1 conv2 orig2 : Bool) (result result2 : TranscriptionResult)
    (sid tid sid2 tid2 : String) (db : DB) (path1 path2 : String)
    (hfile1 : resolveAudioPath filename conv1 orig1 = some path1)
    (hfile2 : resolveAudioPath filename conv2 orig2 = some path2)
    (hsuccess : result.success = true)
    (hnoT : ∀ s, findSessionByFilename db filename = some s →
      findTranscriptBySession db s.id = none)
    (hfresh : findTranscriptBySession db sid = none) :
    ∃ resp1 resp2,
      (transcribeRoute filename conv1 orig1 result sid tid db).response =
        Except.ok resp1 ∧
      (transcribeRoute filename conv2 orig2 result2 sid2 tid2
          (transcribeRoute filename conv1 orig1 result sid tid db).db).response =
        Except.ok resp2 ∧
      resp1.success = true ∧ resp2.success = true ∧
      resp2.session_id = resp1.session_id ∧
      resp2.full_text = resp1.full_text ∧
      (transcribeRoute filename conv1 orig1 result sid tid db).inference_calls
        = 1 ∧
      (transcribeRoute filename conv2 orig2 result2 sid2 tid2
          (transcribeRoute filename conv1 orig1 result sid tid db).db).inference_calls
        = 0 := by
  rcases hs : findSessionByFilename db filename with _ | s
  · -- no session yet: a new one is created under uuid `sid`
    have hr1 := transcribeRoute_run_new filename conv1 orig1 result sid tid db
      path1 hfile1 hs
    have hfresh1 : findTranscriptBySession
        { db with sessions := db.sessions ++ [⟨sid, filename, path1, "transcribing"⟩] }
        sid = none := hfresh
    have hp1 := persistResult_success_new sid tid result
      { db with sessions := db.sessions ++ [⟨sid, filename, path1, "transcribing"⟩] }
      hsuccess hfresh1
    rw [hr1, hp1]
    have hs2 : findSessionByFilename
        (setSessionStatus
          { sessions := db.sessions ++ [⟨sid, filename, path1, "transcribing"⟩]
            transcripts := db.transcripts ++
              [⟨tid, sid, result.full_text, result.segments,
                result.language_detected, result.model_used,
                result.processing_duration_ms⟩] }
          sid ("transcribed")) filename =
        some ⟨sid, filename, path1, "transcribed"⟩ := by
      rw [findSession_setStatus]
      have hbase : findSessionByFilename
          { sessions := db.sessions ++ [⟨sid, filename, path1, "transcribing"⟩]
            transcripts := db.transcripts ++
              [⟨tid, sid, result.full_text, result.segments,
                result.language_detected, result.model_used,
                result.processing_duration_ms⟩] } filename =
          some ⟨sid, filename, path1, "transcribing"⟩ := by
        show (db.sessions ++
            ([⟨sid, filename, path1, "transcribing"⟩] : List SessionRec)).find?
            (fun s : SessionRec => s.filename == filename) = _
        rw [find?_append_of_none _ _ _ hs]
        simp [List.find?]
      rw [hbase]
      simp
    have ht2 : findTranscriptBySession
        (setSessionStatus
          { sessions := db.sessions ++ [⟨sid, filename, path1, "transcribing"⟩]
            transcripts := db.transcripts ++
              [⟨tid, sid, result.full_text, result.segments,
                result.language_detected, result.model_used,
                result.processing_duration_ms⟩] }
          sid ("transcribed"))
        (SessionRec.id ⟨sid, filename, path1, "transcribed"⟩) =
        some ⟨tid, sid, result.full_text, result.segments,
          result.language_detected, result.model_used,
          result.processing_duration_ms⟩ := by
      rw [findTranscript_setStatus]
      show (db.transcripts ++
          ([⟨tid, sid, result.full_text, result.segments,
            result.language_detected, result.model_used,
            result.processing_duration_ms⟩] : List TranscriptRec)).find?
          (fun t : TranscriptRec => t.session_id == sid) = _
      rw [find?_append_of_none _ _ _ hfresh]
      simp [List.find?]
    have hr2 := transcribeRoute_idem filename conv2 orig2 result2 sid2 tid2 _
      path2 _ _ hfile2 hs2 ht2
    rw [hr2]
    refine ⟨_, _, rfl, rfl, rfl, rfl, rfl, ?_, rfl, rfl⟩
    show pyOr result.full_text [] = result.full_text
    exact pyOr_nil _
  · -- session exists, but has no transcript yet
    have ht := hnoT s hs
    have hr1 := transcribeRoute_run_existing filename conv1 orig1 result sid tid
      db path1 s hfile1 hs ht
    have hp1 := persistResult_success_new s.id tid result db hsuccess ht
    rw [hr1, hp1]
    have hs2 : findSessionByFilename
        (setSessionStatus
          { db with transcripts := db.transcripts ++
              [⟨tid, s.id, result.full_text, result.segments,
                result.language_detected, result.model_used,
                result.processing_duration_ms⟩] }
          s.id ("transcribed")) filename =
        some { s with processing_status := "transcribed" } := by
      rw [findSession_setStatus]
      have hbase : findSessionByFilename
          { db with transcripts := db.transcripts ++
              [⟨tid, s.id, result.full_text, result.segments,
                result.language_detected, result.model_used,
                result.processing_duration_ms⟩] } filename = some s := hs
      rw [hbase]
      simp
    have ht2 : findTranscriptBySession
        (setSessionStatus
          { db with transcripts := db.transcripts ++
              [⟨tid, s.id, result.full_text, result.segments,
                result.language_detected, result.model_used,
                result.processing_duration_ms⟩] }
          s.id ("transcribed"))
        (SessionRec.id { s with processing_status := "transcribed" }) =
        some ⟨tid, s.id, result.full_text, result.segments,
          result.language_detected, result.model_used,
          result.processing_duration_ms⟩ := by
      rw [findTranscript_setStatus]
      show (db.transcripts ++
          ([⟨tid, s.id, result.full_text, result.segments,
            result.language_detected, result.model_used,
            result.processing_duration_ms⟩] : List TranscriptRec)).find?
          (fun t : TranscriptRec => t.session_id == s.id) = _
      rw [find?_append_of_none _ _ _ ht]
      simp [List.find?]
    have hr2 := transcribeRoute_idem filename conv2 orig2 result2 sid2 tid2 _
      path2 _ _ hfile2 hs2 ht2
    rw [hr2]
    refine ⟨_, _, rfl, rfl, rfl, rfl, rfl, ?_, rfl, rfl⟩
    show pyOr result.full_text [] = result.full_text
    exact pyOr_nil _

theorem claim_C1_witness :
    ∃ resp1 resp2,
      (transcribeRoute ("clip.wav") true false sampleResult ("s1") ("t1")
        ⟨[], []⟩).response = Except.ok resp1 ∧
      (transcribeRoute ("clip.wav") true false sampleResult ("s2") ("t2")
          (transcribeRoute ("clip.wav") true false sampleResult ("s1") ("t1")
            ⟨[], []⟩).db).response = Except.ok resp2 ∧
      resp1.success = true ∧ resp2.success = true ∧
      resp2.session_id = resp1.session_id ∧
      resp2.full_text = resp1.full_text ∧
      (transcribeRoute ("clip.wav") true false sampleResult ("s1") ("t1")
        ⟨[], []⟩).inference_calls = 1 ∧
      (transcribeRoute ("clip.wav") true false sampleResult ("s2") ("t2")
          (transcribeRoute ("clip.wav") true false sampleResult ("s1") ("t1")
            ⟨[], []⟩).db).inference_calls = 0 :=
  claim_C1_idempotent_transcription ("clip.wav") true false true false
    sampleResult sampleResult ("s1") ("t1") ("s2") ("t2") ⟨[], []⟩
    ("audio_files/converted/" ++ "clip.wav")
    ("audio_files/converted/" ++ "clip.wav") rfl rfl rfl
    (fun _ h => Option.noConfusion h) rfl

/-- The session/transcript coupling: a session is `transcribed` only if
some transcript row belongs to it. -/
def sessionTranscriptInv (db : DB) : Prop :=
  ∀ s ∈ db.sessions, s.processing_status = "transcribed" →
    ∃ t ∈ db.transcripts, t.session_id = s.id

theorem inv_append_session (db : DB) (ns : SessionRec)
    (hns : ns.processing_status ≠ "transcribed")
    (hinv : sessionTranscriptInv db) :
    sessionTranscriptInv { db with sessions := db.sessions ++ [ns] } := by
  intro s hsmem hstat
  rcases List.mem_append.mp hsmem with h | h
  · exact hinv s h hstat
  · rcases List.mem_singleton.mp h with rfl
    exact absurd hstat hns

theorem inv_set_error (db : DB) (sid : String)
    (hinv : sessionTranscriptInv db) :
    sessionTranscriptInv (setSessionStatus db sid ("error")) := by
  intro s' hs' hstat
  obtain ⟨s0, hs0, rfl⟩ := List.mem_map.mp hs'
  by_cases hid : (s0.id == sid) = true
  · simp only [hid, if_pos] at hstat
    exact absurd hstat (by decide)
  · simp only [hid] at hstat ⊢
    rw [if_neg (by simp [hid])] at hstat ⊢
    obtain ⟨t, htm, hts⟩ := hinv s0 hs0 hstat
    exact ⟨t, htm, hts⟩

theorem inv_set_transcribed (db : DB) (sid : String) (dbT : DB)
    (hsess : dbT.sessions = db.sessions)
    (hpres : ∀ t ∈ db.transcripts,
      ∃ t' ∈ dbT.transcripts, t'.session_id = t.session_id)
    (hnew : ∃ t' ∈ dbT.transcripts, t'.session_id = sid)
    (hinv : sessionTranscriptInv db) :
    sessionTranscriptInv (setSessionStatus dbT sid ("transcribed")) := by
  intro s' hs' hstat'
  have hs'' : s' ∈ dbT.sessions.map
      (fun s => if s.id == sid then { s with processing_status := "transcribed" }
        else s) := hs'
  rw [hsess] at hs''
  obtain ⟨s0, hs0, rfl⟩ := List.mem_map.mp hs''
  by_cases hid : (s0.id == sid) = true
  · obtain ⟨t', htm, hts⟩ := hnew
    refine ⟨t', htm, ?_⟩
    simp only [hid, if_true, ite_true]
    rw [hts]
    exact (eq_of_beq hid).symm
  · simp only [hid] at hstat' ⊢
    rw [if_neg (by simp)] at hstat' ⊢
    obtain ⟨t, htm, hts⟩ := hinv s0 hs0 hstat'
    obtain ⟨t', htm', hts'⟩ := hpres t htm
    exact ⟨t', htm', by rw [hts', hts]⟩

theorem transcriptUpdater_session_id (r : TranscriptionResult)
    (t0id : String) (tr : TranscriptRec) :
    ((fun tr : TranscriptRec =>
      if tr.id == t0id then
        { tr with
          full_text := r.full_text
          segments := r.segments
          language := r.language_detected
          model_version := r.model_used
          processing_duration_ms := r.processing_duration_ms }
      else tr) tr).session_id = tr.session_id := by
  by_cases h : (tr.id == t0id) = true
  · simp [h]
  · simp [h]

/-- C4: after every request, a session is in status `transcribed` only if
a transcript row for it exists (inductive preservation of the coupling
invariant); when the pipeline runs and succeeds, the transcript upsert
and the `transcribed` status land together; when the pipeline result is
a failure the request writes no transcript data at all, and if inference
actually ran the session for this filename ends in status `error`. -/
theorem claim_C4_status_transcript_atomicity (filename : String)
    (conv orig : Bool) (result : TranscriptionResult) (sid tid : String)
    (db : DB) (hinv : sessionTranscriptInv db) :
    sessionTranscriptInv
      (transcribeRoute filename conv orig result sid tid db).db ∧
    (result.success = false →
      (transcribeRoute filename conv orig result sid tid db).db.transcripts =
        db.transcripts) ∧
    (result.success = false →
      (transcribeRoute filename conv orig result sid tid db).inference_calls = 1 →
      ∃ s ∈ (transcribeRoute filename conv orig result sid tid db).db.sessions,
        s.filename = filename ∧ s.processing_status = "error") ∧
    (result.success = true →
      (transcribeRoute filename conv orig result sid tid db).inference_calls = 1 →
      ∃ s ∈ (transcribeRoute filename conv orig result sid tid db).db.sessions,
        s.filename = filename ∧ s.processing_status = "transcribed" ∧
        ∃ t ∈ (transcribeRoute filename conv orig result sid tid db).db.transcripts,
          t.session_id = s.id) := by
  rcases hfp : resolveAudioPath filename conv orig with _ | path
  · rw [transcribeRoute_notfound _ _ _ _ _ _ _ hfp]
    exact ⟨hinv, fun _ => rfl, fun _ hc => by simp at hc,
      fun _ hc => by simp at hc⟩
  · rcases hs : findSessionByFilename db filename with _ | s
    · -- no session: one is created in status "transcribing" under uuid sid
      rw [transcribeRoute_run_new _ _ _ _ _ _ _ path hfp hs]
      have hinv1 : sessionTranscriptInv
          { db with sessions := db.sessions ++
              [⟨sid, filename, path, "transcribing"⟩] } :=
        inv_append_session db _
          (show ("transcribing" : String) ≠ "transcribed" by decide) hinv
      rcases hsucc : result.success with _ | _
      · rw [persistResult_failure _ _ _ _ hsucc]
        refine ⟨inv_set_error _ sid hinv1, fun _ => rfl, fun _ _ => ?_,
          fun htrue _ => absurd htrue (by decide)⟩
        refine ⟨⟨sid, filename, path, "error"⟩, ?_, rfl, rfl⟩
        apply List.mem_map.mpr
        refine ⟨⟨sid, filename, path, "transcribing"⟩, ?_, by simp⟩
        exact List.mem_append.mpr (Or.inr (by simp))
      · rcases htr : findTranscriptBySession
            { db with sessions := db.sessions ++
                [⟨sid, filename, path, "transcribing"⟩] } sid with _ | t0
        · rw [persistResult_success_new sid tid result _ hsucc htr]
          refine ⟨?_, fun hfalse => absurd hfalse (by decide),
            fun hfalse _ => absurd hfalse (by decide), fun _ _ => ?_⟩
          · refine inv_set_transcribed
              { db with sessions := db.sessions ++
                  [⟨sid, filename, path, "transcribing"⟩] }
              sid _ rfl ?_ ?_ hinv1
            · intro t htm
              exact ⟨t, List.mem_append.mpr (Or.inl htm), rfl⟩
            · exact ⟨⟨tid, sid, result.full_text, result.segments,
                result.language_detected, result.model_used,
                result.processing_duration_ms⟩,
                List.mem_append.mpr (Or.inr (by simp)), rfl⟩
          · refine ⟨⟨sid, filename, path, "transcribed"⟩, ?_, rfl, rfl, ?_⟩
            · apply List.mem_map.mpr
              refine ⟨⟨sid, filename, path, "transcribing"⟩, ?_, by simp⟩
              exact List.mem_append.mpr (Or.inr (by simp))
            · exact ⟨⟨tid, sid, result.full_text, result.segments,
                result.language_detected, result.model_used,
                result.processing_duration_ms⟩,
                List.mem_append.mpr (Or.inr (by simp)), rfl⟩
        · rw [persistResult_success_update sid tid result _ t0 hsucc htr]
          have ht0sid : t0.session_id = sid := by
            have hb := List.find?_some htr
            exact eq_of_beq hb
          refine ⟨?_, fun hfalse => absurd hfalse (by decide),
            fun hfalse _ => absurd hfalse (by decide), fun _ _ => ?_⟩
          · refine inv_set_transcribed
              { db with sessions := db.sessions ++
                  [⟨sid, filename, path, "transcribing"⟩] }
              sid _ rfl ?_ ?_ hinv1
            · intro t htm
              exact ⟨_, List.mem_map_of_mem _ htm,
                transcriptUpdater_session_id result t0.id t⟩
            · refine ⟨_, List.mem_map_of_mem _
                (List.mem_of_find?_eq_some htr), ?_⟩
              rw [transcriptUpdater_session_id result t0.id t0]
              exact ht0sid
          · refine ⟨⟨sid, filename, path, "transcribed"⟩, ?_, rfl, rfl, ?_⟩
            · apply List.mem_map.mpr
              refine ⟨⟨sid, filename, path, "transcribing"⟩, ?_, by simp⟩
              exact List.mem_append.mpr (Or.inr (by simp))
            · refine ⟨_, List.mem_map_of_mem _
                (List.mem_of_find?_eq_some htr), ?_⟩
              rw [transcriptUpdater_session_id result t0.id t0]
              exact ht0sid
    · rcases htr0 : findTranscriptBySession db s.id with _ | t1
      · -- session without transcript: inference runs for session s.id
        rw [transcribeRoute_run_existing _ _ _ _ _ _ _ path s hfp hs htr0]
        have hsfn : s.filename = filename := by
          have hb := List.find?_some hs
          exact eq_of_beq hb
        rcases hsucc : result.success with _ | _
        · rw [persistResult_failure _ _ _ _ hsucc]
          refine ⟨inv_set_error _ s.id hinv, fun _ => rfl, fun _ _ => ?_,
            fun htrue _ => absurd htrue (by decide)⟩
          refine ⟨{ s with processing_status := "error" }, ?_, hsfn, rfl⟩
          apply List.mem_map.mpr
          exact ⟨s, List.mem_of_find?_eq_some hs, by simp⟩
        · rw [persistResult_success_new s.id tid result db hsucc htr0]
          refine ⟨?_, fun hfalse => absurd hfalse (by decide),
            fun hfalse _ => absurd hfalse (by decide), fun _ _ => ?_⟩
          · refine inv_set_transcribed db s.id _ rfl ?_ ?_ hinv
            · intro t htm
              exact ⟨t, List.mem_append.mpr (Or.inl htm), rfl⟩
            · exact ⟨⟨tid, s.id, result.full_text, result.segments,
                result.language_detected, result.model_used,
                result.processing_duration_ms⟩,
                List.mem_append.mpr (Or.inr (by simp)), rfl⟩
          · refine ⟨{ s with processing_status := "transcribed" }, ?_,
              hsfn, rfl, ?_⟩
            · apply List.mem_map.mpr
              exact ⟨s, List.mem_of_find?_eq_some hs, by simp⟩
            · exact ⟨⟨tid, s.id, result.full_text, result.segments,
                result.language_detected, result.model_used,
                result.processing_duration_ms⟩,
                List.mem_append.mpr (Or.inr (by simp)), rfl⟩
      · -- idempotent path: nothing changes
        rw [transcribeRoute_idem _ _ _ _ _ _ _ path s t1 hfp hs htr0]
        exact ⟨hinv, fun _ => rfl, fun _ hc => by simp at hc,
          fun _ hc => by simp at hc⟩

def failResult : TranscriptionResult :=
  ⟨false, [], [], 4, "NbAiLab/nb-whisper-small", 0, 0, some ("boom"), none⟩

theorem claim_C4_witness :
    sessionTranscriptInv
      (transcribeRoute ("other.wav") true false failResult ("s3") ("t3")
        wDB).db ∧
    (failResult.success = false →
      (transcribeRoute ("other.wav") true false failResult ("s3") ("t3")
        wDB).db.transcripts = wDB.transcripts) ∧
    (failResult.success = false →
      (transcribeRoute ("other.wav") true false failResult ("s3") ("t3")
        wDB).inference_calls = 1 →
      ∃ s ∈ (transcribeRoute ("other.wav") true false failResult ("s3") ("t3")
        wDB).db.sessions,
        s.filename = "other.wav" ∧ s.processing_status = "error") ∧
    (failResult.success = true →
      (transcribeRoute ("other.wav") true false failResult ("s3") ("t3")
        wDB).inference_calls = 1 →
      ∃ s ∈ (transcribeRoute ("other.wav") true false failResult ("s3") ("t3")
        wDB).db.sessions,
        s.filename = "other.wav" ∧ s.processing_status = "transcribed" ∧
        ∃ t ∈ (transcribeRoute ("other.wav") true false failResult ("s3") ("t3")
          wDB).db.transcripts, t.session_id = s.id) :=
  claim_C4_status_transcript_atomicity ("other.wav") true false failResult
    ("s3") ("t3") wDB (by unfold sessionTranscriptInv; decide)

theorem claim_C8_witness :
    (transcribeAudioModel 1040000 witnessBackend).chunks_processed = 3 :=
  claim_C8_end_to_end.2.2 witnessBackend
